import Mathlib

/-!
Verification development for the CSV error-classification reviewer
(`main.py`): a shallow embedding of its data model (rows as Python-style
string-keyed dictionaries), its CSV load/save paths, the row-overview
navigation state machine, and the detailed-classification sub-dialog,
together with theorems settling the specification's claims.
-/

/-- A Python value stored in a row dictionary: either a string cell or
Python's `None` (which `csv.DictReader` uses as the fill value `restval`
for fieldnames beyond the end of a short data row). -/
inductive PyVal where
  | str : String → PyVal
  | none : PyVal
deriving DecidableEq, Repr

/-- First value bound to key `k` in an association list (Python dicts are
modelled as association lists with unique keys, so this is the dict value). -/
def lookupA {α : Type} : List (String × α) → String → Option α
  | [], _ => Option.none
  | kv :: r, k => if kv.1 = k then some kv.2 else lookupA r k

/-- Python `d[k] = v`: replace the value at an existing key in place, or
append a new binding at the end (insertion order), as Python dicts do. -/
def setA {α : Type} : List (String × α) → String → α → List (String × α)
  | [], k, v => [(k, v)]
  | kv :: r, k, v => if kv.1 = k then (k, v) :: r else kv :: setA r k v

/-- Python `k in d`. -/
def hasKeyA {α : Type} (r : List (String × α)) (k : String) : Bool :=
  (lookupA r k).isSome

/-- Python `d.get(k, default)`. -/
def getA {α : Type} (r : List (String × α)) (k : String) (d : α) : α :=
  (lookupA r k).getD d

/-- Python `dict(pairs)`: later occurrences of a key overwrite earlier ones. -/
def dictOfA {α : Type} (ps : List (String × α)) : List (String × α) :=
  ps.foldl (fun r kv => setA r kv.1 kv.2) []

/-- The loop `for col in cols: d[col] = f(col)`. -/
def setAll {α : Type} (r : List (String × α)) (cols : List String) (f : String → α) :
    List (String × α) :=
  cols.foldl (fun r c => setA r c (f c)) r

/-- A row record: a Python dict from column name to cell value. -/
abbrev Row := List (String × PyVal)

/-- `ERROR_COLUMNS` from `main.py`: the 9 error categories, in order. -/
def ERROR_COLUMNS : List String :=
  ["Grammar", "Factuality", "Hallucination", "Redundancy", "Repetition",
   "Missing Step", "Coherency", "Commonsense", "Arithmetic"]

/-- `REQUIRED_COLUMNS` from `main.py`: 4 fixed fields plus the 9 categories. -/
def REQUIRED_COLUMNS : List String :=
  ["question", "true_answer", "predicted_answer_full", "is_correct"] ++ ERROR_COLUMNS

/-- The header-augmentation loop of `MainWindow.load_csv`:
`for col in ERROR_COLUMNS: if col not in headers: headers.append(col)`.
Note that in the source this mutates `reader.fieldnames` in place, so the
data rows are subsequently parsed against the augmented header. -/
def augmentHeaders (headers : List String) : List String :=
  ERROR_COLUMNS.foldl (fun hs col => if hs.contains col then hs else hs ++ [col]) headers

/-- `csv.DictReader` row construction: `dict(zip(fieldnames, cells))`, with
fieldnames beyond the end of a short data row bound to `restval`, which is
Python `None`.  (A data row longer than the fieldnames would additionally
bind the spare cells to the non-string `restkey`; that entry is not
representable with string keys and is omitted — theorems about data rows
are stated under the hypothesis that rows are no longer than the header.) -/
def zipFill : List String → List String → List (String × PyVal)
  | [], _ => []
  | f :: fs, [] => (f, PyVal.none) :: zipFill fs []
  | f :: fs, v :: vs => (f, PyVal.str v) :: zipFill fs vs

/-- One parsed `csv.DictReader` row for the given fieldnames. -/
def mkRow (fieldnames vals : List String) : Row :=
  dictOfA (zipFill fieldnames vals)

/-- The per-row default loop shared by `load_csv` and `save_csv`:
`for col in ERROR_COLUMNS: if col not in row: row[col] = "No"`. -/
def fixRow (r : Row) : Row :=
  ERROR_COLUMNS.foldl (fun r col => if hasKeyA r col then r else setA r col (PyVal.str "No")) r

/-- The core of `MainWindow.load_csv`, for an input whose header row is
`header` and whose data rows are `rows`: augment the reader's fieldnames
in place, report missing required columns, otherwise parse the data rows
(against the already-augmented fieldnames, as the source does) and run the
per-row default loop. -/
def load_core (header : List String) (rows : List (List String)) :
    Except (List String) (List String × List Row) :=
  let headers := augmentHeaders header
  let missing := REQUIRED_COLUMNS.filter (fun c => !(headers.contains c))
  if missing.isEmpty then
    Except.ok (headers, (rows.map (mkRow headers)).map fixRow)
  else
    Except.error missing

/-- The `MainWindow` state relevant to loading: the table model holding the
current headers and data, and the remembered CSV path. -/
structure MainWindowState where
  model : Option (List String × List Row)
  csv_file_path : Option String
deriving DecidableEq, Repr

/-- `MainWindow.load_csv`: on a missing-columns report the method returns
before touching `self.model` or `self.csv_file_path`; on success both are
replaced.  The second component is the warning payload (the missing list)
shown to the user, if any. -/
def MainWindowState.load_csv (w : MainWindowState) (file_path : String)
    (header : List String) (rows : List (List String)) :
    MainWindowState × Option (List String) :=
  match load_core header rows with
  | Except.error missing => (w, some missing)
  | Except.ok hd => ({ model := some hd, csv_file_path := some file_path }, Option.none)

/-- How `csv.writer` renders a cell: Python `None` is written as the empty
string, strings are written as themselves. -/
def renderCell : PyVal → String
  | PyVal.str s => s
  | PyVal.none => ""

/-- `csv.DictWriter.writerow` on one row dict: with the default
`extrasaction="raise"` a key outside the fieldnames raises `ValueError`;
otherwise each fieldname is emitted as `row.get(name, restval)` with
`restval = None` rendered as the empty string. -/
def writeRow (fieldnames : List String) (r : Row) : Except Unit (List String) :=
  if r.all (fun kv => fieldnames.contains kv.1) then
    Except.ok (fieldnames.map (fun k => renderCell (getA r k PyVal.none)))
  else
    Except.error ()

/-- The core of `MainWindow.save_csv`: augment the model's headers with any
absent category columns, run the per-row default loop, and emit the header
plus one output line per row in order. -/
def save_core (headers : List String) (data : List Row) :
    Except Unit (List String × List (List String)) :=
  let headers := augmentHeaders headers
  let fixed := data.map fixRow
  match fixed.mapM (writeRow headers) with
  | Except.ok outRows => Except.ok (headers, outRows)
  | Except.error e => Except.error e

/-- The state of `DetailedClassificationWindow`: the responses dict and the
index of the category currently being asked. -/
structure DetailedClassificationWindow where
  responses : List (String × String)
  current_idx : Nat
deriving DecidableEq, Repr

/-- `DetailedClassificationWindow.__init__`: `self.responses =
dict(initial_values)` when seed values are supplied, else one `"No"` per
category; questioning starts at index 0. -/
def DetailedClassificationWindow.init
    (initial_values : Option (List (String × String))) : DetailedClassificationWindow :=
  { responses :=
      match initial_values with
      | some iv => dictOfA iv
      | Option.none => ERROR_COLUMNS.map (fun col => (col, "No"))
    current_idx := 0 }

/-- The shared guarded assignment of `next_question` and `finish`:
`if 0 <= self.current_idx < len(self.error_keys): self.responses[key] = answer`,
where `answer` is the text currently selected in the Yes/No combo box. -/
def DetailedClassificationWindow.recordCurrent
    (s : DetailedClassificationWindow) (answer : String) : List (String × String) :=
  if s.current_idx < ERROR_COLUMNS.length then
    setA s.responses (ERROR_COLUMNS.getD s.current_idx "") answer
  else s.responses

/-- `DetailedClassificationWindow.next_question`: record the current answer,
then advance; when the index passes the last category the dialog accepts. -/
def DetailedClassificationWindow.next_question
    (s : DetailedClassificationWindow) (answer : String) : DetailedClassificationWindow :=
  { responses := s.recordCurrent answer, current_idx := s.current_idx + 1 }

/-- `DetailedClassificationWindow.finish`: record the current answer and
accept immediately. -/
def DetailedClassificationWindow.finish
    (s : DetailedClassificationWindow) (answer : String) : DetailedClassificationWindow :=
  { s with responses := s.recordCurrent answer }

/-- `DetailedClassificationWindow.get_responses`. -/
def DetailedClassificationWindow.get_responses
    (s : DetailedClassificationWindow) : List (String × String) :=
  s.responses

/-- A user pressing Next repeatedly with the given answers; stops (returning
`true`) as soon as the dialog accepts, i.e. when the index reaches the
number of categories. -/
def DetailedClassificationWindow.runAdvances :
    DetailedClassificationWindow → List String → DetailedClassificationWindow × Bool
  | s, [] => (s, false)
  | s, a :: as =>
    let s' := s.next_question a
    if ERROR_COLUMNS.length ≤ s'.current_idx then (s', true)
    else runAdvances s' as

/-- One complete user interaction with the dialog: some Next presses, then
optionally a Finish press with a final answer.  Returns the responses dict
when the dialog ends accepted (by advancing past the last category or by
Finish), and `none` when it ends any other way (e.g. closed). -/
def DetailedClassificationWindow.runDialog
    (initial_values : Option (List (String × String)))
    (advances : List String) (finishAnswer : Option String) :
    Option (List (String × String)) :=
  let p := DetailedClassificationWindow.runAdvances
      (DetailedClassificationWindow.init initial_values) advances
  if p.2 then some p.1.get_responses
  else
    match finishAnswer with
    | some a => some (p.1.finish a).get_responses
    | Option.none => Option.none

/-- Python's default `str.strip()` whitespace set, for the ASCII content
that `is_correct` holds. -/
def isSpaceChar (c : Char) : Bool :=
  c = ' ' ∨ c = '\t' ∨ c = '\n' ∨ c = '\r' ∨ c = '\x0b' ∨ c = '\x0c'

/-- `str.strip()` on the character list: drop whitespace at both ends. -/
def trimChars (cs : List Char) : List Char :=
  ((cs.dropWhile isSpaceChar).reverse.dropWhile isSpaceChar).reverse

/-- `str.lower()` on one character (ASCII letters, which is all the
`is_correct` comparison against `"true"` can ever match). -/
def lowerChar (c : Char) : Char :=
  if 65 ≤ c.toNat ∧ c.toNat ≤ 90 then Char.ofNat (c.toNat + 32) else c

/-- `.strip().lower()` as applied to `is_correct` values. -/
def pyStripLower (s : String) : String :=
  String.mk ((trimChars s.data).map lowerChar)

/-- Whether a `PyVal` is a string (on a `None`, `.strip()` would raise in
Python; theorems about code paths that call string methods on `is_correct`
carry a well-formedness hypothesis ruling that out). -/
def isStrVal : PyVal → Bool
  | PyVal.str _ => true
  | PyVal.none => false

/-- The row-lock test used throughout `RowOverviewWindow`:
`row.get("is_correct", "").strip().lower() == "true"`. -/
def isLockedRow (r : Row) : Bool :=
  match getA r "is_correct" (PyVal.str "") with
  | PyVal.str s => pyStripLower s = "true"
  | PyVal.none => false

/-- A row on which the lock test runs without a Python `AttributeError`. -/
def rowWF (r : Row) : Bool := isStrVal (getA r "is_correct" (PyVal.str ""))

/-- The combo-box read of a stored category value in `load_row_into_ui`:
`val = row.get(col, "")`, coerced to `"No"` unless it is exactly `"Yes"`
or `"No"` (a Python `None` is likewise not in that list). -/
def normToken : PyVal → String
  | PyVal.str s => if s = "Yes" ∨ s = "No" then s else "No"
  | PyVal.none => "No"

/-- `QComboBox.setCurrentText` on a non-editable combo whose items are
`["No", "Yes"]`: selects the matching item, or does nothing when the text
matches no item. -/
def setCurrentText (combos : List (String × String)) (col text : String) :
    List (String × String) :=
  if text = "No" ∨ text = "Yes" then setA combos col text else combos

/-- The loop `for col in cols: combos[col].setCurrentText(f(col))`. -/
def setAllCombos (combos : List (String × String)) (cols : List String)
    (f : String → String) : List (String × String) :=
  cols.foldl (fun cs c => setCurrentText cs c (f c)) combos

/-- The boundary notices the row-overview window can report. -/
inductive Notice where
  | skippedCorrect
  | noMoreRows
  | noPreviousRow
deriving DecidableEq, Repr

/-- The state of `RowOverviewWindow`: the shared row list, the cursor index,
the nine category combo boxes (their current texts and common enabled
flag), the detail button's enabled flag, and how the dialog ended
(`none` while open, `some true` accepted via Finish All, `some false`
closed at the end of the rows). -/
structure RowOverviewWindow where
  csv_data : List Row
  current_index : Nat
  error_combos : List (String × String)
  combos_enabled : Bool
  detail_enabled : Bool
  done : Option Bool
deriving DecidableEq, Repr

/-- `RowOverviewWindow.load_row_into_ui`: bounds-checked; sets the cursor
index, then either locks the combos to `"No"` and disables drill-down (row
marked correct) or enables everything and shows the row's normalized
stored values. -/
def RowOverviewWindow.load_row_into_ui (s : RowOverviewWindow) (index : Nat) :
    RowOverviewWindow :=
  if index < s.csv_data.length then
    let row := s.csv_data.getD index []
    let s := { s with current_index := index }
    if isLockedRow row then
      { s with
        error_combos := setAllCombos s.error_combos ERROR_COLUMNS (fun _ => "No"),
        combos_enabled := false,
        detail_enabled := false }
    else
      { s with
        detail_enabled := true,
        combos_enabled := true,
        error_combos := setAllCombos s.error_combos ERROR_COLUMNS
          (fun col => normToken (getA row col (PyVal.str ""))) }
  else s

/-- The snapshot `current_answers` taken by `open_detailed_classification`:
a fresh dict of each combo's current text. -/
def RowOverviewWindow.comboAnswers (s : RowOverviewWindow) : List (String × String) :=
  setAll [] ERROR_COLUMNS (fun col => getA s.error_combos col "")

/-- `RowOverviewWindow.open_detailed_classification`, with the user's
interaction with the child dialog supplied as data: bounds-checked; a row
marked correct is refused with the informational skip notice; otherwise
the dialog runs seeded with the combo snapshot and, only if it ends
accepted, its responses are written back into the combo boxes.
(`final_responses[col]` cannot raise `KeyError`: the seed binds every
category and responses are only ever overwritten or extended.) -/
def RowOverviewWindow.open_detailed_classification (s : RowOverviewWindow)
    (advances : List String) (finishAnswer : Option String) :
    RowOverviewWindow × Option Notice :=
  if s.current_index < s.csv_data.length then
    let row := s.csv_data.getD s.current_index []
    if isLockedRow row then
      (s, some Notice.skippedCorrect)
    else
      match DetailedClassificationWindow.runDialog (some s.comboAnswers)
          advances finishAnswer with
      | some final_responses =>
        ({ s with
            error_combos := setAllCombos s.error_combos ERROR_COLUMNS
              (fun col => (lookupA final_responses col).getD "") },
         Option.none)
      | Option.none => (s, Option.none)
  else (s, Option.none)

/-- `RowOverviewWindow.save_current_row`: bounds-checked; a row marked
correct is committed as all-`"No"`, any other row receives each combo's
current text. -/
def RowOverviewWindow.save_current_row (s : RowOverviewWindow) : RowOverviewWindow :=
  if s.current_index < s.csv_data.length then
    let row := s.csv_data.getD s.current_index []
    let row' :=
      if isLockedRow row then
        setAll row ERROR_COLUMNS (fun _ => PyVal.str "No")
      else
        setAll row ERROR_COLUMNS (fun col => PyVal.str (getA s.error_combos col ""))
    { s with csv_data := s.csv_data.set s.current_index row' }
  else s

/-- `RowOverviewWindow.save_and_next_row`: commit, then either move forward
and reload the UI, or report "no more rows" and close the dialog. -/
def RowOverviewWindow.save_and_next_row (s : RowOverviewWindow) :
    RowOverviewWindow × Option Notice :=
  let s := s.save_current_row
  if s.current_index + 1 < s.csv_data.length then
    let s' := { s with current_index := s.current_index + 1 }
    (s'.load_row_into_ui s'.current_index, Option.none)
  else
    ({ s with done := some false }, some Notice.noMoreRows)

/-- `RowOverviewWindow.save_and_previous_row`: commit, then either move back
and reload the UI, or report "no previous row" and stay. -/
def RowOverviewWindow.save_and_previous_row (s : RowOverviewWindow) :
    RowOverviewWindow × Option Notice :=
  let s := s.save_current_row
  if 0 < s.current_index then
    let s' := { s with current_index := s.current_index - 1 }
    (s'.load_row_into_ui s'.current_index, Option.none)
  else
    (s, some Notice.noPreviousRow)

/-- `RowOverviewWindow.finish_all`: commit the current row and accept. -/
def RowOverviewWindow.finish_all (s : RowOverviewWindow) :
    RowOverviewWindow × Option Notice :=
  let s := s.save_current_row
  ({ s with done := some true }, Option.none)

/-- `RowOverviewWindow.__init__` with `row_number` defaulting to 1: combo
boxes start on their first item `"No"`, everything enabled, and the first
row is loaded into the UI. -/
def RowOverviewWindow.initWindow (csv_data : List Row) (row_number : Nat) :
    RowOverviewWindow :=
  RowOverviewWindow.load_row_into_ui
    { csv_data := csv_data
      current_index := row_number - 1
      error_combos := ERROR_COLUMNS.map (fun col => (col, "No"))
      combos_enabled := true
      detail_enabled := true
      done := Option.none }
    (row_number - 1)

/-- Every row's `is_correct` value is a string, so no navigation step can
raise a Python `AttributeError`. -/
def stateWF (s : RowOverviewWindow) : Bool := s.csv_data.all rowWF

/-- One user action on the row-overview window. -/
inductive Op where
  | next
  | previous
  | finishAll
  | detail (advances : List String) (finishAnswer : Option String)
deriving DecidableEq, Repr

/-- Apply one user action; once the dialog has ended no further action can
reach it. -/
def applyOp (s : RowOverviewWindow) (op : Op) : RowOverviewWindow × Option Notice :=
  if s.done.isSome then (s, Option.none)
  else
    match op with
    | Op.next => s.save_and_next_row
    | Op.previous => s.save_and_previous_row
    | Op.finishAll => s.finish_all
    | Op.detail advances finishAnswer =>
        s.open_detailed_classification advances finishAnswer

/-- Apply a sequence of user actions, discarding the notices. -/
def runOps (s : RowOverviewWindow) (ops : List Op) : RowOverviewWindow :=
  ops.foldl (fun s op => (applyOp s op).1) s

/-! ### Association-list lemmas -/

theorem lookupA_setA_self {α : Type} (r : List (String × α)) (k : String) (v : α) :
    lookupA (setA r k v) k = some v := by
  induction r with
  | nil => simp [setA, lookupA]
  | cons kv r ih =>
    by_cases h : kv.1 = k
    · simp [setA, h, lookupA]
    · simp [setA, h, lookupA, ih]

theorem lookupA_setA_ne {α : Type} (r : List (String × α)) {k k' : String} (v : α)
    (h : k' ≠ k) : lookupA (setA r k' v) k = lookupA r k := by
  induction r with
  | nil => simp [setA, lookupA, h]
  | cons kv r ih =>
    by_cases hk : kv.1 = k'
    · simp [setA, hk, lookupA, h, hk ▸ h]
    · simp [setA, hk, lookupA, ih]


theorem setA_eq_of_lookup {α : Type} {r : List (String × α)} {k : String} {v : α}
    (h : lookupA r k = some v) : setA r k v = r := by
  induction r with
  | nil => simp [lookupA] at h
  | cons kv r ih =>
    obtain ⟨k1, v1⟩ := kv
    by_cases hk : k1 = k
    · simp [lookupA, hk] at h
      simp [setA, hk, h]
    · simp [lookupA, hk] at h
      simp [setA, hk, ih h]

theorem setA_of_lookup_none {α : Type} {r : List (String × α)} {k : String} (v : α)
    (h : lookupA r k = Option.none) : setA r k v = r ++ [(k, v)] := by
  induction r with
  | nil => simp [setA]
  | cons kv r ih =>
    by_cases hk : kv.1 = k
    · simp [lookupA, hk] at h
    · simp [lookupA, hk] at h
      simp [setA, hk, ih h]

theorem mem_setA {α : Type} {r : List (String × α)} {k : String} {v : α}
    {kv : String × α} (h : kv ∈ setA r k v) : kv = (k, v) ∨ kv ∈ r := by
  induction r with
  | nil => simpa [setA] using h
  | cons kv' r ih =>
    by_cases hk : kv'.1 = k
    · simp only [setA, if_pos hk, List.mem_cons] at h
      rcases h with h1 | h1
      · exact Or.inl h1
      · exact Or.inr (List.mem_cons_of_mem _ h1)
    · simp only [setA, if_neg hk, List.mem_cons] at h
      rcases h with h1 | h1
      · exact Or.inr (List.mem_cons.mpr (Or.inl h1))
      · rcases ih h1 with h2 | h2
        · exact Or.inl h2
        · exact Or.inr (List.mem_cons_of_mem _ h2)

theorem isSome_lookupA_setA {α : Type} (r : List (String × α)) (k k' : String) (v : α)
    (h : (lookupA r k).isSome = true) : (lookupA (setA r k' v) k).isSome = true := by
  by_cases hk : k' = k
  · subst hk; simp [lookupA_setA_self]
  · rw [lookupA_setA_ne r v hk]; exact h

theorem lookupA_append {α : Type} (r₁ r₂ : List (String × α)) (k : String) :
    lookupA (r₁ ++ r₂) k = (lookupA r₁ k).or (lookupA r₂ k) := by
  induction r₁ with
  | nil => simp [lookupA]
  | cons kv r ih =>
    by_cases hk : kv.1 = k
    · simp [lookupA, hk]
    · simp [lookupA, hk, ih]

theorem lookupA_setAll_not_mem {α : Type} (r : List (String × α)) (cols : List String)
    (f : String → α) {c : String} (h : ¬ c ∈ cols) :
    lookupA (setAll r cols f) c = lookupA r c := by
  induction cols generalizing r with
  | nil => simp [setAll]
  | cons c' cols ih =>
    simp only [List.mem_cons, not_or] at h
    simp only [setAll, List.foldl_cons]
    rw [show (List.foldl (fun r c => setA r c (f c)) (setA r c' (f c')) cols)
        = setAll (setA r c' (f c')) cols f from rfl]
    rw [ih _ h.2]
    exact lookupA_setA_ne r (f c') (fun hc => h.1 hc.symm)

theorem lookupA_setAll_mem {α : Type} (r : List (String × α)) (cols : List String)
    (f : String → α) {c : String} (h : c ∈ cols) :
    lookupA (setAll r cols f) c = some (f c) := by
  induction cols generalizing r with
  | nil => cases h
  | cons c' cols ih =>
    simp only [setAll, List.foldl_cons]
    rw [show (List.foldl (fun r c => setA r c (f c)) (setA r c' (f c')) cols)
        = setAll (setA r c' (f c')) cols f from rfl]
    by_cases hc : c ∈ cols
    · exact ih _ hc
    · have hcc : c = c' := by
        rcases List.mem_cons.mp h with h' | h'
        · exact h'
        · exact absurd h' hc
      subst hcc
      rw [lookupA_setAll_not_mem _ _ _ hc]
      exact lookupA_setA_self r c (f c)

theorem setAll_eq_self {α : Type} {r : List (String × α)} {cols : List String}
    {f : String → α} (h : ∀ c ∈ cols, lookupA r c = some (f c)) :
    setAll r cols f = r := by
  induction cols with
  | nil => simp [setAll]
  | cons c cols ih =>
    simp only [setAll, List.foldl_cons]
    rw [setA_eq_of_lookup (h c (List.mem_cons_self c cols))]
    exact ih (fun c' hc' => h c' (List.mem_cons_of_mem _ hc'))

theorem isSome_lookupA_setAll {α : Type} (r : List (String × α)) (cols : List String)
    (f : String → α) (k : String) (h : (lookupA r k).isSome = true) :
    (lookupA (setAll r cols f) k).isSome = true := by
  induction cols generalizing r with
  | nil => simpa [setAll] using h
  | cons c cols ih =>
    simp only [setAll, List.foldl_cons]
    exact ih _ (isSome_lookupA_setA _ _ _ _ h)

theorem contains_iff_mem (l : List String) (a : String) :
    l.contains a = true ↔ a ∈ l := by
  simp

theorem hasKeyA_iff_isSome {α : Type} (r : List (String × α)) (k : String) :
    hasKeyA r k = true ↔ (lookupA r k).isSome = true := Iff.rfl

/-! ### `dict(pairs)` on lists with distinct keys -/

theorem foldl_setA_of_disjoint {α : Type} (ps : List (String × α)) :
    ∀ r : List (String × α), (ps.map Prod.fst).Nodup →
    (∀ p ∈ ps, lookupA r p.1 = Option.none) →
    ps.foldl (fun r kv => setA r kv.1 kv.2) r = r ++ ps := by
  induction ps with
  | nil => intro r _ _; simp
  | cons p ps ih =>
    intro r hnd hdis
    simp only [List.map_cons, List.nodup_cons] at hnd
    simp only [List.foldl_cons]
    rw [setA_of_lookup_none p.2 (hdis p (List.mem_cons_self p ps))]
    rw [ih (r ++ [(p.1, p.2)]) hnd.2 ?_]
    · simp
    · intro q hq
      rw [lookupA_append]
      rw [hdis q (List.mem_cons_of_mem _ hq)]
      have hne : ¬ p.1 = q.1 := by
        intro he
        exact hnd.1 (he ▸ (List.mem_map.mpr ⟨q, hq, rfl⟩))
      simp [lookupA, hne]

theorem dictOfA_eq_self {α : Type} {ps : List (String × α)}
    (hnd : (ps.map Prod.fst).Nodup) : dictOfA ps = ps := by
  have := foldl_setA_of_disjoint ps [] hnd (fun p _ => rfl)
  simpa [dictOfA] using this

/-! ### `zipFill` (DictReader row construction) -/

theorem zipFill_map_fst (fs vs : List String) :
    (zipFill fs vs).map Prod.fst = fs := by
  induction fs generalizing vs with
  | nil => simp [zipFill]
  | cons f fs ih =>
    cases vs with
    | nil => simp [zipFill, ih]
    | cons v vs => simp [zipFill, ih]

theorem isSome_lookupA_zipFill {fs : List String} (vs : List String) {k : String}
    (h : k ∈ fs) : (lookupA (zipFill fs vs) k).isSome = true := by
  induction fs generalizing vs with
  | nil => cases h
  | cons f fs ih =>
    by_cases hk : f = k
    · cases vs with
      | nil => simp [zipFill, lookupA, hk]
      | cons v vs => simp [zipFill, lookupA, hk]
    · have hm : k ∈ fs := by
        rcases List.mem_cons.mp h with h' | h'
        · exact absurd h'.symm hk
        · exact h'
      cases vs with
      | nil => simpa [zipFill, lookupA, hk] using ih [] hm
      | cons v vs => simpa [zipFill, lookupA, hk] using ih vs hm

theorem lookupA_zipFill_nil {fs : List String} {k : String} (h : k ∈ fs) :
    lookupA (zipFill fs []) k = some PyVal.none := by
  induction fs with
  | nil => cases h
  | cons f fs ih =>
    by_cases hk : f = k
    · simp [zipFill, lookupA, hk]
    · have hm : k ∈ fs := by
        rcases List.mem_cons.mp h with h' | h'
        · exact absurd h'.symm hk
        · exact h'
      simpa [zipFill, lookupA, hk] using ih hm

theorem lookupA_zipFill_append {fs₁ : List String} (fs₂ : List String)
    (vs : List String) {k : String} (h : ¬ k ∈ fs₁) :
    lookupA (zipFill (fs₁ ++ fs₂) vs) k
      = lookupA (zipFill fs₂ (vs.drop fs₁.length)) k := by
  induction fs₁ generalizing vs with
  | nil => simp
  | cons f fs ih =>
    simp only [List.mem_cons, not_or] at h
    have hfk : ¬ f = k := fun he => h.1 he.symm
    cases vs with
    | nil =>
      have hih : lookupA (zipFill (fs ++ fs₂) []) k
          = lookupA (zipFill fs₂ (List.drop fs.length [])) k := ih [] h.2
      simpa [zipFill, lookupA, hfk] using hih
    | cons v vs =>
      have hih : lookupA (zipFill (fs ++ fs₂) vs) k
          = lookupA (zipFill fs₂ (List.drop fs.length vs)) k := ih vs h.2
      simpa [zipFill, lookupA, hfk] using hih

/-! ### Header augmentation -/

theorem foldl_augment (cs : List String) :
    ∀ hs : List String, cs.Nodup →
    cs.foldl (fun acc c => if acc.contains c then acc else acc ++ [c]) hs
      = hs ++ cs.filter (fun c => !(hs.contains c)) := by
  induction cs with
  | nil => intro hs _; simp
  | cons c cs ih =>
    intro hs hnd
    simp only [List.nodup_cons] at hnd
    simp only [List.foldl_cons, List.filter_cons]
    by_cases hc : hs.contains c = true
    · rw [if_pos hc, ih hs hnd.2]
      simp [hc, (contains_iff_mem hs c).mp hc]
    · rw [if_neg hc, ih (hs ++ [c]) hnd.2]
      have hcm : ¬ c ∈ hs := fun hm => hc ((contains_iff_mem hs c).mpr hm)
      have hfil : cs.filter (fun x => !((hs ++ [c]).contains x))
          = cs.filter (fun x => !(hs.contains x)) := by
        apply List.filter_congr
        intro x hx
        have hxc : ¬ x = c := fun he => hnd.1 (he ▸ hx)
        simp [hxc]
      rw [hfil]
      have hcb : (!(hs.contains c)) = true := by simp [hcm]
      rw [if_pos hcb]
      simp

theorem augmentHeaders_eq (hs : List String) :
    augmentHeaders hs = hs ++ ERROR_COLUMNS.filter (fun c => !(hs.contains c)) :=
  foldl_augment ERROR_COLUMNS hs (by decide)

theorem mem_augmentHeaders {c : String} (h : c ∈ ERROR_COLUMNS) (hs : List String) :
    c ∈ augmentHeaders hs := by
  rw [augmentHeaders_eq]
  by_cases hc : c ∈ hs
  · exact List.mem_append_left _ hc
  · refine List.mem_append_right _ (List.mem_filter.mpr ⟨h, ?_⟩)
    simpa [contains_iff_mem] using hc

theorem mem_of_mem_augmentHeaders {c : String} {hs : List String}
    (h : c ∈ hs) : c ∈ augmentHeaders hs := by
  rw [augmentHeaders_eq]
  exact List.mem_append_left _ h

theorem augmentHeaders_idem (hs : List String) :
    augmentHeaders (augmentHeaders hs) = augmentHeaders hs := by
  conv_lhs => rw [augmentHeaders_eq (augmentHeaders hs)]
  have : ERROR_COLUMNS.filter (fun c => !((augmentHeaders hs).contains c)) = [] := by
    rw [List.filter_eq_nil_iff]
    intro c hc
    simp [contains_iff_mem, mem_augmentHeaders hc hs]
  rw [this, List.append_nil]

theorem augmentHeaders_nodup {hs : List String} (h : hs.Nodup) :
    (augmentHeaders hs).Nodup := by
  rw [augmentHeaders_eq]
  refine List.Nodup.append h (List.Nodup.filter _ (by decide)) ?_
  intro c hc hcf
  have := (List.mem_filter.mp hcf).2
  simp [contains_iff_mem] at this
  exact this hc

theorem length_le_augmentHeaders (hs : List String) :
    hs.length ≤ (augmentHeaders hs).length := by
  rw [augmentHeaders_eq]
  simp

/-! ### The per-row default loop -/

theorem fixRow_eq_self {r : Row} (h : ∀ c ∈ ERROR_COLUMNS, hasKeyA r c = true) :
    fixRow r = r := by
  have : ∀ cs : List String, (∀ c ∈ cs, hasKeyA r c = true) →
      cs.foldl (fun r col => if hasKeyA r col then r else setA r col (PyVal.str "No")) r = r := by
    intro cs
    induction cs with
    | nil => intro _; simp
    | cons c cs ih =>
      intro hcs
      simp only [List.foldl_cons, hcs c (List.mem_cons_self c cs), if_pos rfl]
      exact ih (fun c' hc' => hcs c' (List.mem_cons_of_mem _ hc'))
  exact this ERROR_COLUMNS h

/-! ### Structure of a successful load -/

theorem load_core_ok {header : List String} {rows : List (List String)}
    {hd : List String} {data : List Row}
    (h : load_core header rows = Except.ok (hd, data)) :
    hd = augmentHeaders header
      ∧ data = (rows.map (mkRow (augmentHeaders header))).map fixRow
      ∧ ∀ c ∈ REQUIRED_COLUMNS, c ∈ augmentHeaders header := by
  by_cases hm : (REQUIRED_COLUMNS.filter
      (fun c => !((augmentHeaders header).contains c))).isEmpty = true
  · refine ⟨?_, ?_, ?_⟩
    · simp only [load_core, hm, if_pos rfl] at h
      exact (Prod.mk.injEq _ _ _ _ ▸ (Except.ok.injEq _ _ ▸ h)).1.symm
    · simp only [load_core, hm, if_pos rfl] at h
      exact (Prod.mk.injEq _ _ _ _ ▸ (Except.ok.injEq _ _ ▸ h)).2.symm
    · intro c hc
      rw [List.isEmpty_iff, List.filter_eq_nil_iff] at hm
      have := hm c hc
      simp only [Bool.not_eq_true', Bool.not_eq_false] at this
      exact (contains_iff_mem _ _).mp this
  · simp only [load_core, hm, if_neg hm] at h
    cases h

theorem mkRow_eq_zipFill {fs : List String} (vs : List String) (h : fs.Nodup) :
    mkRow fs vs = zipFill fs vs := by
  unfold mkRow
  apply dictOfA_eq_self
  rw [zipFill_map_fst]
  exact h

theorem writeRow_zipFill_ok (fs vs : List String) :
    writeRow fs (zipFill fs vs)
      = Except.ok (fs.map (fun k => renderCell (getA (zipFill fs vs) k PyVal.none))) := by
  unfold writeRow
  rw [if_pos]
  rw [List.all_eq_true]
  intro kv hkv
  have : kv.1 ∈ (zipFill fs vs).map Prod.fst := List.mem_map.mpr ⟨kv, hkv, rfl⟩
  rw [zipFill_map_fst] at this
  exact (contains_iff_mem _ _).mpr this

theorem renderRow_eq (fs : List String) :
    ∀ vs : List String, fs.Nodup → vs.length ≤ fs.length →
    fs.map (fun k => renderCell (getA (zipFill fs vs) k PyVal.none))
      = vs ++ List.replicate (fs.length - vs.length) "" := by
  induction fs with
  | nil =>
    intro vs _ hlen
    rw [List.length_nil, Nat.le_zero] at hlen
    rw [List.eq_nil_of_length_eq_zero hlen]
    simp
  | cons f fs ih =>
    intro vs hnd hlen
    rw [List.nodup_cons] at hnd
    have hmc : ∀ k ∈ fs, lookupA (zipFill (f :: fs) vs.tail) k = lookupA (zipFill fs vs.tail.tail) k := by
      intro k hk
      have hfk : ¬ f = k := fun he => hnd.1 (he ▸ hk)
      cases vs with
      | nil => simp [zipFill, lookupA, hfk]
      | cons v vs' =>
        cases vs' with
        | nil => simp [zipFill, lookupA, hfk]
        | cons w ws => simp [zipFill, lookupA, hfk]
    cases vs with
    | nil =>
      simp only [List.map_cons]
      have hhead : renderCell (getA (zipFill (f :: fs) []) f PyVal.none) = "" := by
        simp [zipFill, getA, lookupA, renderCell]
      have htail : fs.map (fun k => renderCell (getA (zipFill (f :: fs) []) k PyVal.none))
          = fs.map (fun k => renderCell (getA (zipFill fs []) k PyVal.none)) := by
        apply List.map_congr_left
        intro k hk
        have hfk : ¬ f = k := fun he => hnd.1 (he ▸ hk)
        simp [zipFill, getA, lookupA, hfk]
      rw [hhead, htail, ih [] hnd.2 (Nat.zero_le _)]
      simp [List.replicate_succ]
    | cons v vs' =>
      simp only [List.map_cons]
      have hhead : renderCell (getA (zipFill (f :: fs) (v :: vs')) f PyVal.none) = v := by
        simp [zipFill, getA, lookupA, renderCell]
      have htail : fs.map (fun k => renderCell (getA (zipFill (f :: fs) (v :: vs')) k PyVal.none))
          = fs.map (fun k => renderCell (getA (zipFill fs vs') k PyVal.none)) := by
        apply List.map_congr_left
        intro k hk
        have hfk : ¬ f = k := fun he => hnd.1 (he ▸ hk)
        simp [zipFill, getA, lookupA, hfk]
      have hlen' : vs'.length ≤ fs.length := by
        simpa [Nat.succ_le_succ_iff] using hlen
      rw [hhead, htail, ih vs' hnd.2 hlen']
      simp

theorem mapM_map {ε α β γ : Type} (l : List α) (g : α → β) (f : β → Except ε γ) :
    (l.map g).mapM f = l.mapM (fun x => f (g x)) := by
  induction l with
  | nil => rfl
  | cons x l ih => rw [List.map_cons, List.mapM_cons, List.mapM_cons, ih]

theorem mapM_ok {ε α β : Type} (l : List α) (f : α → Except ε β) (g : α → β)
    (h : ∀ x ∈ l, f x = Except.ok (g x)) : l.mapM f = Except.ok (l.map g) := by
  induction l with
  | nil => rfl
  | cons x l ih =>
    rw [List.mapM_cons, h x (List.mem_cons_self x l),
      ih (fun y hy => h y (List.mem_cons_of_mem _ hy))]
    rfl

theorem hasKeyA_zipFill_errcols {fs : List String} (vs : List String)
    (hsub : ∀ c ∈ ERROR_COLUMNS, c ∈ fs) :
    ∀ c ∈ ERROR_COLUMNS, hasKeyA (zipFill fs vs) c = true := by
  intro c hc
  exact isSome_lookupA_zipFill vs (hsub c hc)

/-- Example input for claims about loading: the four fixed columns plus a
single category column holding a token outside the Yes/No domain. -/
def exHeaderA : List String :=
  ["question", "true_answer", "predicted_answer_full", "is_correct", "Arithmetic"]

/-- One data row for `exHeaderA`, not marked correct, with `Arithmetic=Maybe`. -/
def exRowsA : List (List String) := [["q1", "t1", "p1", "False", "Maybe"]]

/-- The row records produced by loading `exHeaderA`/`exRowsA`. -/
def exDataA : List Row :=
  match load_core exHeaderA exRowsA with
  | Except.ok p => p.2
  | Except.error _ => []

/-- C1 counterexample: loading a dataset whose header lacks the `Grammar`
column and whose one row stores `Arithmetic=Maybe` yields a row record in
which `Grammar` is bound to Python `None` (not `"No"`) and `Arithmetic`
still holds `"Maybe"` — the category values are not restricted to the two
canonical tokens after load, contrary to the claim. -/
theorem C1_counterexample :
    lookupA (exDataA.getD 0 []) "Grammar" = some PyVal.none
    ∧ ¬ lookupA (exDataA.getD 0 []) "Grammar" = some (PyVal.str "No")
    ∧ lookupA (exDataA.getD 0 []) "Arithmetic" = some (PyVal.str "Maybe")
    ∧ ¬ (PyVal.str "Maybe" = PyVal.str "Yes" ∨ PyVal.str "Maybe" = PyVal.str "No") := by
  decide

/-- C1 (amended): for a well-formed input (distinct header names, data rows
no longer than the header), after a successful load every row record has
all 13 required fields present as keys; however, a category column absent
from the input header is bound to Python `None` in every row (the header
augmentation mutates the reader's fieldnames before the rows are parsed,
so the per-row `"No"` defaulting loop finds every key already present),
and stored category tokens are not normalized at load time. -/
theorem C1_amended (header : List String) (rows : List (List String))
    (hd : List String) (data : List Row)
    (hnd : header.Nodup)
    (hlen : ∀ r ∈ rows, r.length ≤ header.length)
    (hload : load_core header rows = Except.ok (hd, data)) :
    ∀ row ∈ data,
      (∀ c ∈ REQUIRED_COLUMNS, hasKeyA row c = true)
      ∧ (∀ c ∈ ERROR_COLUMNS, ¬ c ∈ header → lookupA row c = some PyVal.none) := by
  obtain ⟨hhd, hdata, hreq⟩ := load_core_ok hload
  have hndH : (augmentHeaders header).Nodup := augmentHeaders_nodup hnd
  intro row hrow
  rw [hdata] at hrow
  rw [List.map_map] at hrow
  obtain ⟨vals, hvals, hroweq⟩ := List.mem_map.mp hrow
  have hzip : row = zipFill (augmentHeaders header) vals := by
    rw [← hroweq]
    simp only [Function.comp]
    rw [mkRow_eq_zipFill vals hndH]
    exact fixRow_eq_self (hasKeyA_zipFill_errcols vals
      (fun c hc => mem_augmentHeaders hc header))
  constructor
  · intro c hc
    rw [hzip]
    exact isSome_lookupA_zipFill vals (hreq c hc)
  · intro c hc hch
    rw [hzip, augmentHeaders_eq]
    rw [lookupA_zipFill_append _ vals hch]
    rw [List.drop_eq_nil_of_le (hlen vals hvals)]
    apply lookupA_zipFill_nil
    exact List.mem_filter.mpr ⟨hc, by simpa [contains_iff_mem] using hch⟩

/-- C1 amended claim instantiated on `exHeaderA`/`exRowsA` at the loaded
row and the absent category column `Grammar`. -/
theorem C1_amended_witness :
    hasKeyA (exDataA.getD 0 []) "Grammar" = true
    ∧ lookupA (exDataA.getD 0 []) "Grammar" = some PyVal.none := by
  have h := C1_amended exHeaderA exRowsA (augmentHeaders exHeaderA) exDataA
    (by decide) (by decide) (by rfl)
  exact ⟨(h (exDataA.getD 0 []) (by decide)).1 "Grammar" (by decide),
    (h (exDataA.getD 0 []) (by decide)).2 "Grammar" (by decide) (by decide)⟩

/-- Example input for the round-trip claim: same header shape as
`exHeaderA` but with the row marked correct (`is_correct=True`). -/
def exHeaderB : List String :=
  ["question", "true_answer", "predicted_answer_full", "is_correct", "Arithmetic"]

/-- One data row for `exHeaderB`: marked correct, `Arithmetic=Maybe`. -/
def exRowsB : List (List String) := [["q1", "t1", "p1", "True", "Maybe"]]

/-- The serialized output of loading then saving `exHeaderB`/`exRowsB`. -/
def exSavedB : List (List String) :=
  match load_core exHeaderB exRowsB with
  | Except.ok p =>
    match save_core p.1 p.2 with
    | Except.ok q => q.2
    | Except.error _ => []
  | Except.error _ => []

/-- C2 counterexample: serializing the loaded dataset writes the malformed
token `Maybe` back out verbatim even though the row has `is_correct=True`
— no token normalization and no lock-forcing happens on the load/save
path, contrary to the claim's two exception clauses. -/
theorem C2_counterexample :
    exSavedB = [["q1", "t1", "p1", "True", "Maybe", "", "", "", "", "", "", "", ""]]
    ∧ ¬ (exSavedB.getD 0 []).getD 4 "" = "No" := by
  decide

/-- C2 (amended): for a well-formed input (distinct header names, data rows
no longer than the header), serializing the record set obtained by loading
preserves the row count, the row order, and every input cell verbatim —
including malformed category tokens and the category fields of rows whose
`is_correct` is `"true"` — and pads each output row with empty cells
(not `"No"`) up to the augmented header width. -/
theorem C2_amended (header : List String) (rows : List (List String))
    (hd : List String) (data : List Row)
    (hnd : header.Nodup)
    (hlen : ∀ r ∈ rows, r.length ≤ header.length)
    (hload : load_core header rows = Except.ok (hd, data)) :
    save_core hd data
      = Except.ok (hd, rows.map (fun r => r ++ List.replicate (hd.length - r.length) "")) := by
  obtain ⟨hhd, hdata, _⟩ := load_core_ok hload
  subst hhd
  have hndH : (augmentHeaders header).Nodup := augmentHeaders_nodup hnd
  have hdata' : data = rows.map (fun vals => zipFill (augmentHeaders header) vals) := by
    rw [hdata, List.map_map]
    apply List.map_congr_left
    intro vals _
    simp only [Function.comp]
    rw [mkRow_eq_zipFill vals hndH]
    exact fixRow_eq_self (hasKeyA_zipFill_errcols vals
      (fun c hc => mem_augmentHeaders hc header))
  have hfix : data.map fixRow = data := by
    rw [hdata', List.map_map]
    apply List.map_congr_left
    intro vals _
    simp only [Function.comp]
    exact fixRow_eq_self (hasKeyA_zipFill_errcols vals
      (fun c hc => mem_augmentHeaders hc header))
  have hmapM : (data.map fixRow).mapM (writeRow (augmentHeaders header))
      = Except.ok (rows.map (fun r =>
          r ++ List.replicate ((augmentHeaders header).length - r.length) "")) := by
    rw [hfix, hdata', mapM_map]
    apply mapM_ok
    intro vals hvals
    rw [writeRow_zipFill_ok]
    rw [renderRow_eq (augmentHeaders header) vals hndH
      (Nat.le_trans (hlen vals hvals) (length_le_augmentHeaders header))]
  simp only [save_core, augmentHeaders_idem, hmapM]

/-- C2 amended claim instantiated on `exHeaderA`/`exRowsA`: the single
output row is the input row padded with eight empty cells. -/
theorem C2_amended_witness :
    save_core (augmentHeaders exHeaderA) exDataA
      = Except.ok (augmentHeaders exHeaderA, exRowsA.map
          (fun r => r ++ List.replicate ((augmentHeaders exHeaderA).length - r.length) "")) :=
  C2_amended exHeaderA exRowsA (augmentHeaders exHeaderA) exDataA
    (by decide) (by decide) (by rfl)

/-- C6: when, after augmenting the header with absent category columns, some
required column is still missing, `load_csv` reports exactly the missing
required column names and leaves the previously loaded window state
untouched. -/
theorem C6_missing_columns (w : MainWindowState) (path : String)
    (header : List String) (rows : List (List String)) (missing : List String)
    (hmiss : missing = REQUIRED_COLUMNS.filter
      (fun c => !((augmentHeaders header).contains c)))
    (hne : ¬ missing = []) :
    MainWindowState.load_csv w path header rows = (w, some missing)
    ∧ ∀ c, c ∈ missing ↔ (c ∈ REQUIRED_COLUMNS ∧ ¬ c ∈ augmentHeaders header) := by
  constructor
  · have hload : load_core header rows = Except.error missing := by
      have hemp : (REQUIRED_COLUMNS.filter
          (fun c => !((augmentHeaders header).contains c))).isEmpty = false := by
        rw [← hmiss]
        cases hm : missing with
        | nil => exact absurd hm hne
        | cons a l => rfl
      simp only [load_core, hemp]
      rw [if_neg]
      · rw [← hmiss]
      · simp
    simp only [MainWindowState.load_csv, hload]
  · intro c
    rw [hmiss]
    constructor
    · intro hc
      obtain ⟨h1, h2⟩ := List.mem_filter.mp hc
      refine ⟨h1, ?_⟩
      simpa [contains_iff_mem] using h2
    · intro hc
      refine List.mem_filter.mpr ⟨hc.1, ?_⟩
      simpa [contains_iff_mem] using hc.2

/-- A previously loaded window state, used to witness that a failing load
leaves it untouched. -/
def exOldWindow : MainWindowState :=
  { model := some (exHeaderA, exDataA), csv_file_path := some "old.csv" }

/-- C6 instantiated: loading a header with only `question` fails, reports
exactly the three other fixed required columns, and leaves the previous
model intact. -/
theorem C6_missing_columns_witness :
    MainWindowState.load_csv exOldWindow "new.csv" ["question"] []
      = (exOldWindow, some ["true_answer", "predicted_answer_full", "is_correct"])
    ∧ ("true_answer" ∈ ["true_answer", "predicted_answer_full", "is_correct"]
        ↔ ("true_answer" ∈ REQUIRED_COLUMNS
          ∧ ¬ "true_answer" ∈ augmentHeaders ["question"])) := by
  have h := C6_missing_columns exOldWindow "new.csv" ["question"] []
    ["true_answer", "predicted_answer_full", "is_correct"] (by decide) (by decide)
  exact ⟨h.1, h.2 "true_answer"⟩

/-! ### Drill-down dialog lemmas -/

theorem ERROR_COLUMNS_getD_ne {j m : Nat} (hj : j < ERROR_COLUMNS.length)
    (hm : m < ERROR_COLUMNS.length) (hne : ¬ j = m) :
    ¬ ERROR_COLUMNS.getD j "" = ERROR_COLUMNS.getD m "" := by
  intro he
  rw [List.getD_eq_getElem ERROR_COLUMNS "" hj, List.getD_eq_getElem ERROR_COLUMNS "" hm] at he
  exact hne ((List.Nodup.getElem_inj_iff (by decide)).mp he)

theorem recordCurrent_isSome (s : DetailedClassificationWindow) (answer k : String)
    (h : (lookupA s.responses k).isSome = true) :
    (lookupA (s.recordCurrent answer) k).isSome = true := by
  unfold DetailedClassificationWindow.recordCurrent
  by_cases hi : s.current_idx < ERROR_COLUMNS.length
  · rw [if_pos hi]
    exact isSome_lookupA_setA _ _ _ _ h
  · rw [if_neg hi]
    exact h

theorem recordCurrent_lookup_ne (s : DetailedClassificationWindow) (answer k : String)
    (h : ∀ hlt : s.current_idx < ERROR_COLUMNS.length,
      ¬ ERROR_COLUMNS.getD s.current_idx "" = k) :
    lookupA (s.recordCurrent answer) k = lookupA s.responses k := by
  unfold DetailedClassificationWindow.recordCurrent
  by_cases hi : s.current_idx < ERROR_COLUMNS.length
  · rw [if_pos hi]
    exact lookupA_setA_ne _ _ (h hi)
  · rw [if_neg hi]

theorem runAdvances_idx_le (advances : List String) :
    ∀ s : DetailedClassificationWindow,
    (DetailedClassificationWindow.runAdvances s advances).1.current_idx
      ≤ s.current_idx + advances.length := by
  induction advances with
  | nil => intro s; simp [DetailedClassificationWindow.runAdvances]
  | cons a as ih =>
    intro s
    simp only [DetailedClassificationWindow.runAdvances]
    have h3 : (s.next_question a).current_idx = s.current_idx + 1 := rfl
    by_cases hacc : ERROR_COLUMNS.length ≤ (s.next_question a).current_idx
    · rw [if_pos hacc, h3]
      simp only [List.length_cons]
      omega
    · rw [if_neg hacc]
      have h2 := ih (s.next_question a)
      rw [h3] at h2
      simp only [List.length_cons]
      omega

theorem runAdvances_isSome (advances : List String) :
    ∀ (s : DetailedClassificationWindow) (k : String),
    (lookupA s.responses k).isSome = true →
    (lookupA (DetailedClassificationWindow.runAdvances s advances).1.responses k).isSome = true := by
  induction advances with
  | nil => intro s k h; exact h
  | cons a as ih =>
    intro s k h
    simp only [DetailedClassificationWindow.runAdvances]
    by_cases hacc : ERROR_COLUMNS.length ≤ (s.next_question a).current_idx
    · rw [if_pos hacc]
      exact recordCurrent_isSome s a k h
    · rw [if_neg hacc]
      exact ih _ k (recordCurrent_isSome s a k h)

theorem runAdvances_lookup_preserved (advances : List String) :
    ∀ (s : DetailedClassificationWindow) (k : String),
    (∀ m, s.current_idx ≤ m → m < s.current_idx + advances.length →
      m < ERROR_COLUMNS.length → ¬ ERROR_COLUMNS.getD m "" = k) →
    lookupA (DetailedClassificationWindow.runAdvances s advances).1.responses k
      = lookupA s.responses k := by
  induction advances with
  | nil => intro s k _; rfl
  | cons a as ih =>
    intro s k hk
    simp only [DetailedClassificationWindow.runAdvances]
    have hrec : lookupA (s.recordCurrent a) k = lookupA s.responses k := by
      apply recordCurrent_lookup_ne
      intro hlt
      exact hk s.current_idx (Nat.le_refl _)
        (by simp only [List.length_cons]; omega) hlt
    by_cases hacc : ERROR_COLUMNS.length ≤ (s.next_question a).current_idx
    · rw [if_pos hacc]
      exact hrec
    · rw [if_neg hacc]
      have hih := ih (s.next_question a) k ?_
      · rw [hih]
        exact hrec
      · intro m hm1 hm2 hm3
        apply hk m
        · simp only [DetailedClassificationWindow.next_question] at hm1
          omega
        · simp only [DetailedClassificationWindow.next_question] at hm2
          simp only [List.length_cons]
          omega
        · exact hm3

/-- C4 counterexample: the drill-down seeded with the partial mapping
`{Grammar: "Yes"}`, advanced once answering `"No"`, then finished, returns
a response set containing only `Grammar` and `Factuality` — seven
categories (e.g. `Hallucination`) are assigned no value at all, because
`dict(initial_values)` copies the seed wholesale and per-category `"No"`
defaults are applied only when no seed is supplied. -/
theorem C4_counterexample :
    DetailedClassificationWindow.runDialog (some [("Grammar", "Yes")]) ["No"] (some "No")
      = some [("Grammar", "No"), ("Factuality", "No")]
    ∧ lookupA [("Grammar", "No"), ("Factuality", "No")] "Hallucination" = Option.none := by
  decide

/-- C4 (amended): when the supplied seed mapping assigns a value to every
category (as every call from the row overview does) — and likewise with no
seed, whose default is the full all-`"No"` mapping — any accepted run of
the drill-down returns a response set assigning a value to each of the 9
categories, and any category whose position was never visited (its index
exceeds the number of advance steps) keeps its seeded value. -/
theorem C4_amended (iv : List (String × String)) (advances : List String)
    (finishAnswer : Option String) (R : List (String × String))
    (hiv : ∀ c ∈ ERROR_COLUMNS, (lookupA (dictOfA iv) c).isSome = true)
    (hrun : DetailedClassificationWindow.runDialog (some iv) advances finishAnswer
      = some R) :
    (∀ c ∈ ERROR_COLUMNS, (lookupA R c).isSome = true)
    ∧ (∀ j, j < ERROR_COLUMNS.length → advances.length < j →
        lookupA R (ERROR_COLUMNS.getD j "") = lookupA (dictOfA iv) (ERROR_COLUMNS.getD j "")) := by
  have hresp0 : (DetailedClassificationWindow.init (some iv)).responses = dictOfA iv := rfl
  have hidx0 : (DetailedClassificationWindow.init (some iv)).current_idx = 0 := rfl
  simp only [DetailedClassificationWindow.runDialog] at hrun
  by_cases hacc : (DetailedClassificationWindow.runAdvances
      (DetailedClassificationWindow.init (some iv)) advances).2 = true
  · rw [if_pos hacc, Option.some.injEq] at hrun
    have hR : R = (DetailedClassificationWindow.runAdvances
        (DetailedClassificationWindow.init (some iv)) advances).1.responses := hrun.symm
    constructor
    · intro c hc
      rw [hR]
      exact runAdvances_isSome advances _ c (hresp0 ▸ hiv c hc)
    · intro j hj hja
      rw [hR]
      rw [← hresp0]
      apply runAdvances_lookup_preserved
      intro m _ hm2 hm3
      rw [hidx0, Nat.zero_add] at hm2
      exact ERROR_COLUMNS_getD_ne hm3 hj (by omega)
  · rw [if_neg hacc] at hrun
    cases finishAnswer with
    | none => cases hrun
    | some a =>
      rw [Option.some.injEq] at hrun
      have hR : R = ((DetailedClassificationWindow.runAdvances
          (DetailedClassificationWindow.init (some iv)) advances).1.finish a).responses :=
        hrun.symm
      have hfin : ((DetailedClassificationWindow.runAdvances
          (DetailedClassificationWindow.init (some iv)) advances).1.finish a).responses
          = (DetailedClassificationWindow.runAdvances
            (DetailedClassificationWindow.init (some iv)) advances).1.recordCurrent a := rfl
      constructor
      · intro c hc
        rw [hR, hfin]
        exact recordCurrent_isSome _ a c
          (runAdvances_isSome advances _ c (hresp0 ▸ hiv c hc))
      · intro j hj hja
        rw [hR, hfin]
        have hidx : (DetailedClassificationWindow.runAdvances
            (DetailedClassificationWindow.init (some iv)) advances).1.current_idx
            ≤ advances.length := by
          have := runAdvances_idx_le advances (DetailedClassificationWindow.init (some iv))
          rw [hidx0, Nat.zero_add] at this
          exact this
        rw [recordCurrent_lookup_ne _ a _ ?_]
        · rw [← hresp0]
          apply runAdvances_lookup_preserved
          intro m _ hm2 hm3
          rw [hidx0, Nat.zero_add] at hm2
          exact ERROR_COLUMNS_getD_ne hm3 hj (by omega)
        · intro hlt
          exact ERROR_COLUMNS_getD_ne hlt hj (by omega)

/-- The full 9-key seed of scenario D: `Grammar=Yes`, `No` elsewhere. -/
def exSeedD : List (String × String) :=
  ERROR_COLUMNS.map (fun c => (c, if c = "Grammar" then "Yes" else "No"))

/-- The responses returned by the drill-down seeded with `exSeedD`, one
advance answering `No`, then Finish. -/
def exRespD : List (String × String) :=
  match DetailedClassificationWindow.runDialog (some exSeedD) ["No"] (some "No") with
  | some R => R
  | Option.none => []

/-- C4 amended claim instantiated on the full seed of scenario D, checked
at the never-visited category `Commonsense` (index 7). -/
theorem C4_amended_witness :
    (lookupA exRespD "Commonsense").isSome = true
    ∧ lookupA exRespD (ERROR_COLUMNS.getD 7 "")
      = lookupA (dictOfA exSeedD) (ERROR_COLUMNS.getD 7 "") := by
  have h := C4_amended exSeedD ["No"] (some "No") exRespD (by decide) (by rfl)
  exact ⟨h.1 "Commonsense" (by decide), h.2 7 (by decide) (by decide)⟩

/-! ### Row-overview window lemmas -/

theorem getD_set_self {α : Type} (l : List α) (n : Nat) (a d : α) (h : n < l.length) :
    (l.set n a).getD n d = a := by
  rw [List.getD_eq_getElem?_getD, List.getElem?_set_self]
  · rfl
  · exact h

theorem getD_set_ne {α : Type} (l : List α) {n m : Nat} (a d : α) (h : ¬ n = m) :
    (l.set n a).getD m d = l.getD m d := by
  rw [List.getD_eq_getElem?_getD, List.getElem?_set_ne h, ← List.getD_eq_getElem?_getD]

theorem isLockedRow_congr {r₁ r₂ : Row}
    (h : lookupA r₁ "is_correct" = lookupA r₂ "is_correct") :
    isLockedRow r₁ = isLockedRow r₂ := by
  unfold isLockedRow getA
  rw [h]

theorem rowWF_congr {r₁ r₂ : Row}
    (h : lookupA r₁ "is_correct" = lookupA r₂ "is_correct") :
    rowWF r₁ = rowWF r₂ := by
  unfold rowWF getA
  rw [h]

/-- `save_current_row` touches only `csv_data`. -/
theorem save_current_row_shape (s : RowOverviewWindow) :
    s.save_current_row = { s with csv_data := s.save_current_row.csv_data } := by
  unfold RowOverviewWindow.save_current_row
  by_cases h : s.current_index < s.csv_data.length
  · rw [if_pos h]
  · rw [if_neg h]

theorem save_current_row_length (s : RowOverviewWindow) :
    s.save_current_row.csv_data.length = s.csv_data.length := by
  unfold RowOverviewWindow.save_current_row
  by_cases h : s.current_index < s.csv_data.length
  · rw [if_pos h]
    exact List.length_set s.csv_data _ _
  · rw [if_neg h]

/-- `save_current_row` leaves every row other than the current one alone. -/
theorem save_current_row_other (s : RowOverviewWindow) (i : Nat)
    (h : ¬ s.current_index = i) :
    s.save_current_row.csv_data.getD i [] = s.csv_data.getD i [] := by
  unfold RowOverviewWindow.save_current_row
  by_cases hb : s.current_index < s.csv_data.length
  · rw [if_pos hb]
    exact getD_set_ne _ _ _ h
  · rw [if_neg hb]

/-- `save_current_row` writes only the nine category fields of the current
row: every other field of every row keeps its value. -/
theorem save_current_row_frame (s : RowOverviewWindow) (i : Nat) (k : String)
    (hk : ¬ k ∈ ERROR_COLUMNS) :
    lookupA (s.save_current_row.csv_data.getD i []) k
      = lookupA (s.csv_data.getD i []) k := by
  by_cases hi : s.current_index = i
  · subst hi
    unfold RowOverviewWindow.save_current_row
    by_cases hb : s.current_index < s.csv_data.length
    · rw [if_pos hb]
      rw [getD_set_self _ _ _ _ hb]
      by_cases hl : isLockedRow (s.csv_data.getD s.current_index [])
      · rw [if_pos hl]
        exact lookupA_setAll_not_mem _ _ _ hk
      · rw [if_neg hl]
        exact lookupA_setAll_not_mem _ _ _ hk
    · rw [if_neg hb]
  · rw [save_current_row_other s i hi]

/-- Committing a locked in-bounds current row stores `"No"` in every
category field of that row. -/
theorem save_current_row_locked (s : RowOverviewWindow)
    (hb : s.current_index < s.csv_data.length)
    (hl : isLockedRow (s.csv_data.getD s.current_index []) = true) :
    ∀ c ∈ ERROR_COLUMNS,
      lookupA (s.save_current_row.csv_data.getD s.current_index []) c
        = some (PyVal.str "No") := by
  intro c hc
  unfold RowOverviewWindow.save_current_row
  rw [if_pos hb, getD_set_self _ _ _ _ hb, if_pos hl]
  exact lookupA_setAll_mem _ _ _ hc

/-- Committing an unlocked in-bounds current row stores each combo's
current text in the corresponding category field. -/
theorem save_current_row_unlocked (s : RowOverviewWindow)
    (hb : s.current_index < s.csv_data.length)
    (hl : ¬ isLockedRow (s.csv_data.getD s.current_index []) = true) :
    ∀ c ∈ ERROR_COLUMNS,
      lookupA (s.save_current_row.csv_data.getD s.current_index []) c
        = some (PyVal.str (getA s.error_combos c "")) := by
  intro c hc
  unfold RowOverviewWindow.save_current_row
  rw [if_pos hb, getD_set_self _ _ _ _ hb, if_neg hl]
  exact lookupA_setAll_mem _ _ _ hc

/-- `load_row_into_ui` never touches the row store, the done flag, or the
length-relevant state. -/
theorem load_row_into_ui_csv (s : RowOverviewWindow) (index : Nat) :
    (s.load_row_into_ui index).csv_data = s.csv_data := by
  unfold RowOverviewWindow.load_row_into_ui
  by_cases h : index < s.csv_data.length
  · rw [if_pos h]
    by_cases hl : isLockedRow (s.csv_data.getD index [])
    · rw [if_pos hl]
    · rw [if_neg hl]
  · rw [if_neg h]

theorem load_row_into_ui_done (s : RowOverviewWindow) (index : Nat) :
    (s.load_row_into_ui index).done = s.done := by
  unfold RowOverviewWindow.load_row_into_ui
  by_cases h : index < s.csv_data.length
  · rw [if_pos h]
    by_cases hl : isLockedRow (s.csv_data.getD index [])
    · rw [if_pos hl]
    · rw [if_neg hl]
  · rw [if_neg h]

/-- `open_detailed_classification` never touches the row store, the cursor
index, or the done flag. -/
theorem open_detailed_csv (s : RowOverviewWindow) (advances : List String)
    (finishAnswer : Option String) :
    (s.open_detailed_classification advances finishAnswer).1.csv_data = s.csv_data
    ∧ (s.open_detailed_classification advances finishAnswer).1.current_index = s.current_index
    ∧ (s.open_detailed_classification advances finishAnswer).1.done = s.done := by
  unfold RowOverviewWindow.open_detailed_classification
  by_cases h : s.current_index < s.csv_data.length
  · rw [if_pos h]
    by_cases hl : isLockedRow (s.csv_data.getD s.current_index [])
    · rw [if_pos hl]
      exact ⟨rfl, rfl, rfl⟩
    · rw [if_neg hl]
      cases DetailedClassificationWindow.runDialog (some s.comboAnswers) advances finishAnswer with
      | none => exact ⟨rfl, rfl, rfl⟩
      | some final_responses => exact ⟨rfl, rfl, rfl⟩
  · rw [if_neg h]
    exact ⟨rfl, rfl, rfl⟩

theorem save_current_row_oob (s : RowOverviewWindow)
    (h : ¬ s.current_index < s.csv_data.length) : s.save_current_row = s := by
  unfold RowOverviewWindow.save_current_row
  rw [if_neg h]

theorem save_and_next_row_csv (s : RowOverviewWindow) :
    (s.save_and_next_row).1.csv_data = s.save_current_row.csv_data := by
  unfold RowOverviewWindow.save_and_next_row
  by_cases h : s.save_current_row.current_index + 1 < s.save_current_row.csv_data.length
  · rw [if_pos h]
    exact load_row_into_ui_csv _ _
  · rw [if_neg h]

theorem save_and_previous_row_csv (s : RowOverviewWindow) :
    (s.save_and_previous_row).1.csv_data = s.save_current_row.csv_data := by
  unfold RowOverviewWindow.save_and_previous_row
  by_cases h : 0 < s.save_current_row.current_index
  · rw [if_pos h]
    exact load_row_into_ui_csv _ _
  · rw [if_neg h]

theorem finish_all_csv (s : RowOverviewWindow) :
    (s.finish_all).1.csv_data = s.save_current_row.csv_data := rfl

/-- Every user action either leaves the row store alone or routes it
through `save_current_row`. -/
theorem applyOp_csv (s : RowOverviewWindow) (op : Op) :
    (applyOp s op).1.csv_data = s.csv_data
    ∨ (applyOp s op).1.csv_data = s.save_current_row.csv_data := by
  unfold applyOp
  by_cases hd : s.done.isSome
  · rw [if_pos hd]
    exact Or.inl rfl
  · rw [if_neg hd]
    cases op with
    | next => exact Or.inr (save_and_next_row_csv s)
    | previous => exact Or.inr (save_and_previous_row_csv s)
    | finishAll => exact Or.inr (finish_all_csv s)
    | detail advances finishAnswer => exact Or.inl (open_detailed_csv s advances finishAnswer).1

theorem applyOp_length (s : RowOverviewWindow) (op : Op) :
    (applyOp s op).1.csv_data.length = s.csv_data.length := by
  rcases applyOp_csv s op with h | h
  · rw [h]
  · rw [h, save_current_row_length]

theorem applyOp_frame (s : RowOverviewWindow) (op : Op) (i : Nat) (k : String)
    (hk : ¬ k ∈ ERROR_COLUMNS) :
    lookupA ((applyOp s op).1.csv_data.getD i []) k
      = lookupA (s.csv_data.getD i []) k := by
  rcases applyOp_csv s op with h | h
  · rw [h]
  · rw [h]
    exact save_current_row_frame s i k hk

theorem runOps_length (ops : List Op) :
    ∀ s : RowOverviewWindow, (runOps s ops).csv_data.length = s.csv_data.length := by
  induction ops with
  | nil => intro s; rfl
  | cons op ops ih =>
    intro s
    unfold runOps
    rw [List.foldl_cons]
    have := ih (applyOp s op).1
    unfold runOps at this
    rw [this, applyOp_length]

theorem runOps_frame (ops : List Op) :
    ∀ (s : RowOverviewWindow) (i : Nat) (k : String), ¬ k ∈ ERROR_COLUMNS →
    lookupA ((runOps s ops).csv_data.getD i []) k
      = lookupA (s.csv_data.getD i []) k := by
  induction ops with
  | nil => intro s i k _; rfl
  | cons op ops ih =>
    intro s i k hk
    unfold runOps
    rw [List.foldl_cons]
    have h1 := ih (applyOp s op).1 i k hk
    unfold runOps at h1
    rw [h1, applyOp_frame s op i k hk]

theorem applyOp_locked_No (s : RowOverviewWindow) (op : Op) (i : Nat)
    (hl : isLockedRow (s.csv_data.getD i []) = true)
    (hno : ∀ c ∈ ERROR_COLUMNS,
      lookupA (s.csv_data.getD i []) c = some (PyVal.str "No")) :
    ∀ c ∈ ERROR_COLUMNS,
      lookupA ((applyOp s op).1.csv_data.getD i []) c = some (PyVal.str "No") := by
  intro c hc
  rcases applyOp_csv s op with h | h
  · rw [h]
    exact hno c hc
  · rw [h]
    by_cases hi : s.current_index = i
    · subst hi
      by_cases hb : s.current_index < s.csv_data.length
      · exact save_current_row_locked s hb hl c hc
      · rw [save_current_row_oob s hb]
        exact hno c hc
    · rw [save_current_row_other s i hi]
      exact hno c hc

theorem runOps_locked_No (ops : List Op) :
    ∀ (s : RowOverviewWindow) (i : Nat),
    isLockedRow (s.csv_data.getD i []) = true →
    (∀ c ∈ ERROR_COLUMNS, lookupA (s.csv_data.getD i []) c = some (PyVal.str "No")) →
    ∀ c ∈ ERROR_COLUMNS,
      lookupA ((runOps s ops).csv_data.getD i []) c = some (PyVal.str "No") := by
  induction ops with
  | nil => intro s i _ hno; exact hno
  | cons op ops ih =>
    intro s i hl hno
    unfold runOps
    rw [List.foldl_cons]
    have hl' : isLockedRow ((applyOp s op).1.csv_data.getD i []) = true := by
      rw [isLockedRow_congr (applyOp_frame s op i "is_correct" (by decide))]
      exact hl
    have h2 := ih (applyOp s op).1 i hl' (applyOp_locked_No s op i hl hno)
    unfold runOps at h2
    exact h2

theorem save_current_row_index (s : RowOverviewWindow) :
    s.save_current_row.current_index = s.current_index := by
  rw [save_current_row_shape s]

theorem save_current_row_combos (s : RowOverviewWindow) :
    s.save_current_row.error_combos = s.error_combos := by
  rw [save_current_row_shape s]

theorem save_current_row_done (s : RowOverviewWindow) :
    s.save_current_row.done = s.done := by
  rw [save_current_row_shape s]

/-- C5: `next()` at the last row and `previous()` at index 0 leave the
cursor index unchanged and report the corresponding boundary notice. -/
theorem C5_cursor_bounds (s : RowOverviewWindow) (hwf : stateWF s = true) :
    (s.current_index + 1 = s.csv_data.length →
      (s.save_and_next_row).1.current_index = s.current_index
      ∧ (s.save_and_next_row).2 = some Notice.noMoreRows)
    ∧ (s.current_index = 0 →
      (s.save_and_previous_row).1.current_index = 0
      ∧ (s.save_and_previous_row).2 = some Notice.noPreviousRow) := by
  constructor
  · intro hlast
    have hcond : ¬ (s.save_current_row.current_index + 1
        < s.save_current_row.csv_data.length) := by
      rw [save_current_row_index, save_current_row_length, hlast]
      omega
    unfold RowOverviewWindow.save_and_next_row
    rw [if_neg hcond]
    exact ⟨save_current_row_index s, rfl⟩
  · intro hfirst
    have hcond : ¬ (0 < s.save_current_row.current_index) := by
      rw [save_current_row_index, hfirst]
      omega
    unfold RowOverviewWindow.save_and_previous_row
    rw [if_neg hcond]
    refine ⟨?_, rfl⟩
    rw [save_current_row_index, hfirst]

/-- C8: boundary navigation still commits — `next()` at the last row routes
through `save_current_row` and then closes the dialog (done flag set to
rejected, not through Finish All); `previous()` at index 0 routes through
`save_current_row` and stays; in particular on an unlocked row the
category fields of the current row hold the combo texts afterwards. -/
theorem C8_boundary_commit (s : RowOverviewWindow) (hwf : stateWF s = true) :
    (s.current_index + 1 = s.csv_data.length →
      s.save_and_next_row
        = ({ s.save_current_row with done := some false }, some Notice.noMoreRows))
    ∧ (s.current_index = 0 →
      s.save_and_previous_row = (s.save_current_row, some Notice.noPreviousRow))
    ∧ (s.current_index + 1 = s.csv_data.length →
      ¬ isLockedRow (s.csv_data.getD s.current_index []) = true →
      ∀ c ∈ ERROR_COLUMNS,
        lookupA ((s.save_and_next_row).1.csv_data.getD s.current_index []) c
          = some (PyVal.str (getA s.error_combos c "")))
    ∧ (s.current_index = 0 →
      ¬ isLockedRow (s.csv_data.getD s.current_index []) = true →
      0 < s.csv_data.length →
      ∀ c ∈ ERROR_COLUMNS,
        lookupA ((s.save_and_previous_row).1.csv_data.getD s.current_index []) c
          = some (PyVal.str (getA s.error_combos c ""))) := by
  refine ⟨?_, ?_, ?_, ?_⟩
  · intro hlast
    have hcond : ¬ (s.save_current_row.current_index + 1
        < s.save_current_row.csv_data.length) := by
      rw [save_current_row_index, save_current_row_length, hlast]
      omega
    unfold RowOverviewWindow.save_and_next_row
    rw [if_neg hcond]
  · intro hfirst
    have hcond : ¬ (0 < s.save_current_row.current_index) := by
      rw [save_current_row_index, hfirst]
      omega
    unfold RowOverviewWindow.save_and_previous_row
    rw [if_neg hcond]
  · intro hlast hunlocked c hc
    rw [save_and_next_row_csv]
    exact save_current_row_unlocked s (by omega) hunlocked c hc
  · intro hfirst hunlocked hlen c hc
    rw [save_and_previous_row_csv]
    exact save_current_row_unlocked s (by omega) hunlocked c hc

/-- C9: the commit writes only the nine category fields — after
`save_current_row` and after any sequence of user actions, every other
field of every row record keeps its value. -/
theorem C9_commit_frame (s : RowOverviewWindow) (hwf : stateWF s = true)
    (i : Nat) (k : String) (hk : ¬ k ∈ ERROR_COLUMNS) :
    lookupA (s.save_current_row.csv_data.getD i []) k
      = lookupA (s.csv_data.getD i []) k
    ∧ ∀ ops : List Op,
      lookupA ((runOps s ops).csv_data.getD i []) k
        = lookupA (s.csv_data.getD i []) k := by
  exact ⟨save_current_row_frame s i k hk, fun ops => runOps_frame ops s i k hk⟩

/-- C10: when the drill-down dialog on an unlocked in-bounds row ends
without acceptance, the row-overview state — in particular the Working
Answers held in the combo boxes — is left completely unchanged and no
notice is shown. -/
theorem C10_dialog_rejected (s : RowOverviewWindow) (hwf : stateWF s = true)
    (advances : List String) (finishAnswer : Option String)
    (hb : s.current_index < s.csv_data.length)
    (hl : ¬ isLockedRow (s.csv_data.getD s.current_index []) = true)
    (hrej : DetailedClassificationWindow.runDialog (some s.comboAnswers)
      advances finishAnswer = Option.none) :
    s.open_detailed_classification advances finishAnswer = (s, Option.none) := by
  unfold RowOverviewWindow.open_detailed_classification
  rw [if_pos hb, if_neg hl, hrej]

/-- A full-header input whose single row is marked correct but stores
`Grammar=Yes`. -/
def exHeaderC : List String := REQUIRED_COLUMNS

/-- The data row for `exHeaderC`: `is_correct=True`, `Grammar=Yes`. -/
def exRowsC : List (List String) :=
  [["q1", "t1", "p1", "True", "Yes", "No", "No", "No", "No", "No", "No", "No", "No"]]

/-- The row records produced by loading `exHeaderC`/`exRowsC`. -/
def exDataC : List Row :=
  match load_core exHeaderC exRowsC with
  | Except.ok p => p.2
  | Except.error _ => []

/-- The row-overview window opened on `exDataC`. -/
def exWindowC : RowOverviewWindow := RowOverviewWindow.initWindow exDataC 1

/-- C3 counterexample: after load and after opening the row overview (an
empty — hence valid — sequence of cursor and drill-down operations), the
locked row's stored `Grammar` field still reads `"Yes"`, not `"No"`: the
all-`"No"` forcing happens only when the row is committed, not at load or
display time. -/
theorem C3_counterexample :
    isLockedRow (exWindowC.csv_data.getD 0 []) = true
    ∧ lookupA ((runOps exWindowC []).csv_data.getD 0 []) "Grammar"
        = some (PyVal.str "Yes")
    ∧ ¬ lookupA ((runOps exWindowC []).csv_data.getD 0 []) "Grammar"
        = some (PyVal.str "No") := by
  decide

/-- C3 (amended): for a row whose `is_correct` strips and lowercases to
`"true"`: (1) opening the drill-down on it is always refused with the
informational skip notice and the state is untouched; (2) committing it
stores `"No"` in all 9 category fields; (3) once its category fields are
all `"No"`, they remain all `"No"` under any further sequence of user
actions.  Before the first commit, however, the stored fields keep their
loaded values. -/
theorem C3_amended :
    (∀ (s : RowOverviewWindow) (advances : List String) (finishAnswer : Option String),
      s.current_index < s.csv_data.length →
      isLockedRow (s.csv_data.getD s.current_index []) = true →
      s.open_detailed_classification advances finishAnswer
        = (s, some Notice.skippedCorrect))
    ∧ (∀ s : RowOverviewWindow,
      s.current_index < s.csv_data.length →
      isLockedRow (s.csv_data.getD s.current_index []) = true →
      ∀ c ∈ ERROR_COLUMNS,
        lookupA (s.save_current_row.csv_data.getD s.current_index []) c
          = some (PyVal.str "No"))
    ∧ (∀ (s : RowOverviewWindow) (ops : List Op) (i : Nat),
      isLockedRow (s.csv_data.getD i []) = true →
      (∀ c ∈ ERROR_COLUMNS, lookupA (s.csv_data.getD i []) c = some (PyVal.str "No")) →
      ∀ c ∈ ERROR_COLUMNS,
        lookupA ((runOps s ops).csv_data.getD i []) c = some (PyVal.str "No")) := by
  refine ⟨?_, ?_, ?_⟩
  · intro s advances finishAnswer hb hl
    unfold RowOverviewWindow.open_detailed_classification
    rw [if_pos hb, if_pos hl]
  · intro s hb hl c hc
    exact save_current_row_locked s hb hl c hc
  · intro s ops i hl hno c hc
    exact runOps_locked_No ops s i hl hno c hc

/-- A locked row whose category fields are already all `"No"`. -/
def exLockedNoRow : Row :=
  ("is_correct", PyVal.str "True") :: ERROR_COLUMNS.map (fun c => (c, PyVal.str "No"))

/-- A one-row window on a locked all-`"No"` row. -/
def exWindowD : RowOverviewWindow :=
  { csv_data := [exLockedNoRow]
    current_index := 0
    error_combos := ERROR_COLUMNS.map (fun c => (c, "No"))
    combos_enabled := false
    detail_enabled := false
    done := Option.none }

/-- C3 amended claim instantiated: the drill-down is refused on the locked
row of `exWindowC`, committing it stores all-`"No"`, and the all-`"No"`
state of `exWindowD`'s row survives a `next()` action. -/
theorem C3_amended_witness :
    RowOverviewWindow.open_detailed_classification exWindowC [] Option.none
      = (exWindowC, some Notice.skippedCorrect)
    ∧ lookupA (exWindowC.save_current_row.csv_data.getD exWindowC.current_index []) "Grammar"
        = some (PyVal.str "No")
    ∧ lookupA ((runOps exWindowD [Op.next]).csv_data.getD 0 []) "Grammar"
        = some (PyVal.str "No") :=
  ⟨C3_amended.1 exWindowC [] Option.none (by decide) (by decide),
   C3_amended.2.1 exWindowC (by decide) (by decide) "Grammar" (by decide),
   C3_amended.2.2 exWindowD [Op.next] 0 (by decide) (by decide) "Grammar" (by decide)⟩

theorem isLockedRow_setAll (row : Row) (f : String → PyVal) :
    isLockedRow (setAll row ERROR_COLUMNS f) = isLockedRow row :=
  isLockedRow_congr (lookupA_setAll_not_mem row ERROR_COLUMNS f (by decide))

theorem setAll_setAll (row : Row) (f : String → PyVal) :
    setAll (setAll row ERROR_COLUMNS f) ERROR_COLUMNS f = setAll row ERROR_COLUMNS f :=
  setAll_eq_self (fun c hc => lookupA_setAll_mem row ERROR_COLUMNS f hc)

/-- C7: committing the same Working Answers twice in succession to the same
row yields exactly the same row-overview state as committing once. -/
theorem C7_commit_idempotent (s : RowOverviewWindow) (hwf : stateWF s = true) :
    s.save_current_row.save_current_row = s.save_current_row := by
  by_cases hb : s.current_index < s.csv_data.length
  · set t := s.save_current_row with ht
    have hidx : t.current_index = s.current_index := by
      rw [ht]; exact save_current_row_index s
    have hlen : t.csv_data.length = s.csv_data.length := by
      rw [ht]; exact save_current_row_length s
    have hb' : t.current_index < t.csv_data.length := by
      rw [hidx, hlen]; exact hb
    have hcombos : t.error_combos = s.error_combos := by
      rw [ht]; exact save_current_row_combos s
    by_cases hl : isLockedRow (s.csv_data.getD s.current_index []) = true
    · have hcsv : t.csv_data
          = s.csv_data.set s.current_index
            (setAll (s.csv_data.getD s.current_index [])
              ERROR_COLUMNS (fun _ => PyVal.str "No")) := by
        rw [ht]
        simp only [RowOverviewWindow.save_current_row]
        rw [if_pos hb, if_pos hl]
      have hrow : t.csv_data.getD t.current_index []
          = setAll (s.csv_data.getD s.current_index [])
            ERROR_COLUMNS (fun _ => PyVal.str "No") := by
        rw [hidx, hcsv]
        exact getD_set_self _ _ _ _ hb
      have hl' : isLockedRow (t.csv_data.getD t.current_index []) = true := by
        rw [hrow, isLockedRow_setAll]
        exact hl
      have houter : t.save_current_row.csv_data = t.csv_data := by
        simp only [RowOverviewWindow.save_current_row]
        rw [if_pos hb', if_pos hl', hrow, setAll_setAll, hidx, hcsv, List.set_set]
      calc t.save_current_row
          = { t with csv_data := t.save_current_row.csv_data } :=
            save_current_row_shape t
        _ = { t with csv_data := t.csv_data } := by rw [houter]
        _ = t := rfl
    · have hcsv : t.csv_data
          = s.csv_data.set s.current_index
            (setAll (s.csv_data.getD s.current_index [])
              ERROR_COLUMNS (fun col => PyVal.str (getA s.error_combos col ""))) := by
        rw [ht]
        simp only [RowOverviewWindow.save_current_row]
        rw [if_pos hb, if_neg hl]
      have hrow : t.csv_data.getD t.current_index []
          = setAll (s.csv_data.getD s.current_index [])
            ERROR_COLUMNS (fun col => PyVal.str (getA s.error_combos col "")) := by
        rw [hidx, hcsv]
        exact getD_set_self _ _ _ _ hb
      have hl' : ¬ isLockedRow (t.csv_data.getD t.current_index []) = true := by
        rw [hrow, isLockedRow_setAll]
        exact hl
      have houter : t.save_current_row.csv_data = t.csv_data := by
        simp only [RowOverviewWindow.save_current_row]
        rw [if_pos hb', if_neg hl', hrow, hcombos, setAll_setAll, hidx, hcsv, List.set_set]
      calc t.save_current_row
          = { t with csv_data := t.save_current_row.csv_data } :=
            save_current_row_shape t
        _ = { t with csv_data := t.csv_data } := by rw [houter]
        _ = t := rfl
  · rw [save_current_row_oob s hb]
    exact save_current_row_oob s hb

/-- An unlocked row with all category fields `"No"`. -/
def exUnlockedRow : Row :=
  ("is_correct", PyVal.str "False") :: ERROR_COLUMNS.map (fun c => (c, PyVal.str "No"))

/-- A one-row window on an unlocked row, with the `Grammar` combo set to
`"Yes"`. -/
def exWindowE : RowOverviewWindow :=
  { csv_data := [exUnlockedRow]
    current_index := 0
    error_combos := ERROR_COLUMNS.map (fun c => (c, if c = "Grammar" then "Yes" else "No"))
    combos_enabled := true
    detail_enabled := true
    done := Option.none }

/-- C5 instantiated on the one-row window `exWindowD`: `next()` and
`previous()` at the single row leave the index at 0 and report the
boundary notices. -/
theorem C5_cursor_bounds_witness :
    ((exWindowD.save_and_next_row).1.current_index = exWindowD.current_index
      ∧ (exWindowD.save_and_next_row).2 = some Notice.noMoreRows)
    ∧ ((exWindowD.save_and_previous_row).1.current_index = 0
      ∧ (exWindowD.save_and_previous_row).2 = some Notice.noPreviousRow) :=
  ⟨(C5_cursor_bounds exWindowD (by decide)).1 (by decide),
   (C5_cursor_bounds exWindowD (by decide)).2 (by decide)⟩

/-- C7 instantiated on `exWindowE`. -/
theorem C7_commit_idempotent_witness :
    exWindowE.save_current_row.save_current_row = exWindowE.save_current_row :=
  C7_commit_idempotent exWindowE (by decide)

/-- C8 instantiated on `exWindowE` (one unlocked row, cursor at 0, which is
both the first and the last row). -/
theorem C8_boundary_commit_witness :
    (exWindowE.save_and_next_row
      = ({ exWindowE.save_current_row with done := some false }, some Notice.noMoreRows))
    ∧ (exWindowE.save_and_previous_row
      = (exWindowE.save_current_row, some Notice.noPreviousRow))
    ∧ lookupA ((exWindowE.save_and_next_row).1.csv_data.getD exWindowE.current_index [])
        "Grammar" = some (PyVal.str (getA exWindowE.error_combos "Grammar" ""))
    ∧ lookupA ((exWindowE.save_and_previous_row).1.csv_data.getD exWindowE.current_index [])
        "Grammar" = some (PyVal.str (getA exWindowE.error_combos "Grammar" "")) :=
  ⟨(C8_boundary_commit exWindowE (by decide)).1 (by decide),
   (C8_boundary_commit exWindowE (by decide)).2.1 (by decide),
   (C8_boundary_commit exWindowE (by decide)).2.2.1 (by decide) (by decide) "Grammar" (by decide),
   (C8_boundary_commit exWindowE (by decide)).2.2.2 (by decide) (by decide) (by decide)
     "Grammar" (by decide)⟩

/-- C9 instantiated on `exWindowE`, the non-category field `is_correct`,
and a single `next()` action. -/
theorem C9_commit_frame_witness :
    lookupA (exWindowE.save_current_row.csv_data.getD 0 []) "is_correct"
      = lookupA (exWindowE.csv_data.getD 0 []) "is_correct"
    ∧ lookupA ((runOps exWindowE [Op.next]).csv_data.getD 0 []) "is_correct"
      = lookupA (exWindowE.csv_data.getD 0 []) "is_correct" := by
  have h := C9_commit_frame exWindowE (by decide) 0 "is_correct" (by decide)
  exact ⟨h.1, h.2 [Op.next]⟩

/-- C10 instantiated on `exWindowE`: a dialog closed with no Next and no
Finish press ends unaccepted and leaves the state untouched. -/
theorem C10_dialog_rejected_witness :
    exWindowE.open_detailed_classification [] Option.none = (exWindowE, Option.none) :=
  C10_dialog_rejected exWindowE (by decide) [] Option.none (by decide) (by decide) (by decide)
